import Mathlib

/-!
Verification development for the pygridder repository
(src/pygridder/girdder.py, class Gridder).

Coordinates are modelled as exact rationals; numpy 2-D arrays as a shape
together with an entry function; fallible Python code (ValueError and
IndexError raised by zip-strict and numpy indexing) as Except String.

External library primitives are not part of the repository source:
the scipy KDTree nearest-neighbour query and the skimage draw rasterizers
are modelled from the spec where so marked in doc comments.
-/

set_option maxHeartbeats 1000000

namespace Pygridder

/-- Model of a numpy 2-D float array: a shape (rows, cols) together with a
total entry function.  Only entries with `i < rows` and `j < cols` are
meaningful; the functions below never read outside that range on the
inputs that correspond to runnable Python. -/
structure Mat where
  rows : Nat
  cols : Nat
  entry : Nat → Nat → ℚ

/-- Total number of elements, as in numpy `arr.size`. -/
def Mat.size (m : Mat) : Nat := m.rows * m.cols

/-- Row-major flattening, as in numpy `arr.ravel()`: flat index `k` holds
entry `(k / cols, k % cols)`. -/
def Mat.ravel (m : Mat) : List ℚ :=
  (List.range m.size).map (fun k => m.entry (k / m.cols) (k % m.cols))

/-- The x centering transform of `Gridder.__init__` (girdder.py lines 39-42):
`x[:, :-1] = tx[:, :-1] + (tx[:, 1:] - tx[:, :-1]) / 2` followed by
`x[:, -1] += (tx[:, -1] - tx[:, -2]) / 2`.  Column `j` with `j + 1 < cols`
becomes the midpoint towards column `j + 1`; the last column is extrapolated
with the delta to column `cols - 2`. -/
def centerX (tx : Mat) : Mat :=
  ⟨tx.rows, tx.cols, fun i j =>
    if j + 1 < tx.cols then tx.entry i j + (tx.entry i (j + 1) - tx.entry i j) / 2
    else tx.entry i j + (tx.entry i j - tx.entry i (tx.cols - 2)) / 2⟩

/-- The y centering transform of `Gridder.__init__` (girdder.py lines 43-44):
the same transform applied along rows. -/
def centerY (ty : Mat) : Mat :=
  ⟨ty.rows, ty.cols, fun i j =>
    if i + 1 < ty.rows then ty.entry i j + (ty.entry (i + 1) j - ty.entry i j) / 2
    else ty.entry i j + (ty.entry i j - ty.entry (ty.rows - 2) j) / 2⟩

/-- State of a constructed `Gridder`.  `dx` is the snap threshold, with
`none` modelling the default `np.inf`.  `tpoints` is the flattened list of
`(x, y)` cell coordinates over which the KDTree is built; the tree itself
carries no information beyond `tpoints`, so it is not stored separately. -/
structure Gridder where
  tx : Mat
  ty : Mat
  dx : Option ℚ
  tpoints : List (ℚ × ℚ)

/-- The x grid retained by `Gridder.__init__`: the input when `centered`,
otherwise its centering transform. -/
def centeredTx (tx : Mat) (centered : Bool) : Mat :=
  if centered then tx else centerX tx

/-- The y grid retained by `Gridder.__init__`. -/
def centeredTy (ty : Mat) (centered : Bool) : Mat :=
  if centered then ty else centerY ty

/-- `Gridder.__init__` (girdder.py lines 36-53).  With `centered = false`
the centering transform is applied first; numpy raises IndexError there when
`tx` has fewer than 2 columns or `ty` fewer than 2 rows (the `[:, -2]` /
`[-2, :]` access).  `tpoints` is built by `zip(tx.ravel(), ty.ravel(),
strict=True)`, which raises ValueError exactly when the two raveled lengths
(the total sizes) differ.  Note that equal sizes with different 2-D shapes
pass this check. -/
def mkGridder (tx ty : Mat) (dx : Option ℚ) (centered : Bool) : Except String Gridder :=
  if centered = false ∧ tx.cols < 2 then
    .error "IndexError: index -2 is out of bounds for axis 1"
  else if centered = false ∧ ty.rows < 2 then
    .error "IndexError: index -2 is out of bounds for axis 0"
  else if (centeredTx tx centered).size ≠ (centeredTy ty centered).size then
    .error "ValueError: zip() argument lengths differ"
  else
    .ok ⟨centeredTx tx centered, centeredTy ty centered, dx,
      List.zip (centeredTx tx centered).ravel (centeredTy ty centered).ravel⟩

/-- Squared Euclidean distance between two planar points. -/
def dist2 (a b : ℚ × ℚ) : ℚ :=
  (a.1 - b.1) * (a.1 - b.1) + (a.2 - b.2) * (a.2 - b.2)

/-- Modelled from the spec: the distance cutoff of the scipy KDTree query
(`distance_upper_bound=dx`, not in src).  A candidate at squared distance
`d2` is accepted when its distance is at most `dx`; `none` models the
default `np.inf` bound.  Working with squared distances keeps arithmetic
rational: for `0 ≤ dx`, `sqrt d2 ≤ dx` iff `d2 ≤ dx * dx`, and for
`dx < 0` both sides of the conjunction reject every candidate, as the
comparison with a nonnegative distance would. -/
def withinBound (dx : Option ℚ) (d2 : ℚ) : Bool :=
  match dx with
  | none => true
  | some b => decide (0 ≤ b ∧ d2 ≤ b * b)

/-- Auxiliary minimum search: walk the remaining points carrying the index
of the next point and the best (index, squared distance) so far.  A new
point replaces the best only on strict improvement, so the first index
attaining the minimum wins. -/
def minIdxAux (p : ℚ × ℚ) : List (ℚ × ℚ) → Nat → Nat × ℚ → Nat × ℚ
  | [], _, best => best
  | q :: rest, k, best =>
    if dist2 q p < best.2 then minIdxAux p rest (k + 1) (k, dist2 q p)
    else minIdxAux p rest (k + 1) best

/-- Modelled from the spec: the scipy KDTree exact nearest-neighbour search
(`KDTree.query` with `k=1`, not in src), returning the flat index of a
closest indexed point together with its squared distance, or `none` for an
empty index.  Ties are resolved to the smallest flat index; the spec notes
the tie order is not significant. -/
def argminD2 (p : ℚ × ℚ) : List (ℚ × ℚ) → Option (Nat × ℚ)
  | [] => none
  | q :: rest => some (minIdxAux p rest 1 (0, dist2 q p))

/-- One query of the spatial index: the flat index of the nearest indexed
point when it lies within the `dx` bound, and the out-of-range sentinel
`tp.length` otherwise — scipy returns `n` (the point count) for misses. -/
def queryOne (tp : List (ℚ × ℚ)) (dx : Option ℚ) (p : ℚ × ℚ) : Nat :=
  match argminD2 p tp with
  | none => tp.length
  | some (i, d) => if withinBound dx d then i else tp.length

/-- `np.unravel_index` for a row-major 2-D shape with `cols` columns:
flat index `i` maps to `(i / cols, i % cols)`. -/
def unravelIndex (cols : Nat) (i : Nat) : Nat × Nat := (i / cols, i % cols)

/-- The per-point composition underlying `_kdtree_query`: the snapped
`(row, col)` of one query point, or `none` when the point is farther than
`dx` from every indexed point and its sentinel index gets deleted. -/
def snapOne (g : Gridder) (p : ℚ × ℚ) : Option (Nat × Nat) :=
  let i := queryOne g.tpoints g.dx p
  if i < g.tpoints.length then some (unravelIndex g.tx.cols i) else none

/-- `Gridder._kdtree_query` (girdder.py lines 55-78) on parallel coordinate
lists.  `zip(x, y, strict=True)` raises ValueError on a length mismatch;
otherwise every point is queried, sentinel indices (`>= len(tpoints)`) are
deleted, and the survivors are unraveled against `tx.shape`.  The Python
code returns the row list and column list separately and every caller zips
them straight back together, so the model returns the zipped pairs. -/
def kdtreeQuery (g : Gridder) (xs ys : List ℚ) : Except String (List (Nat × Nat)) :=
  if xs.length ≠ ys.length then .error "ValueError: zip() argument lengths differ"
  else
    .ok ((((xs.zip ys).map (queryOne g.tpoints g.dx)).filter
      (fun i => decide (i < g.tpoints.length))).map (unravelIndex g.tx.cols))

/-- `Gridder.grid_points` (girdder.py lines 94-111): the query results,
zipped into `(row, col)` pairs. -/
def gridPoints (g : Gridder) (xs ys : List ℚ) : Except String (List (Nat × Nat)) :=
  kdtreeQuery g xs ys

/-- `Gridder.make_empty_grid` (girdder.py lines 80-92) with the default
integer dtype: a `tx.shape`-shaped array of zeros. -/
def makeEmptyGrid (g : Gridder) : List (List Int) :=
  List.replicate g.tx.rows (List.replicate g.tx.cols 0)

/-- Modelled from the spec: the inner `while d >= 0: r = r + sr; d = d - 2*dc`
loop of the discrete (Bresenham) line-drawing primitive used by `grid_lines`
(skimage.draw.line, not in src).  The loop is run with explicit fuel; every
call below passes fuel `d.toNat + 1` with `0 < twodc`, which is enough for
the guard to fail before the fuel runs out, so the fuel never truncates the
loop. -/
def bresWhileF (sr twodc : Int) : Nat → Int → Int → Int × Int
  | 0, r, d => (r, d)
  | k + 1, r, d =>
    if 0 ≤ d then bresWhileF sr twodc k (r + sr) (d - twodc) else (r, d)

/-- Modelled from the spec: the main emission loop of the Bresenham line
tracer (skimage.draw.line, not in src), run `dc` times.  Each iteration
emits the current cell — with coordinates swapped back when `steep` — then
advances `r` through the while loop and steps `c` by `sc`, adding `twodr`
to the error term. -/
def bresLoop (steep : Bool) (sr sc twodr twodc : Int) :
    Nat → Int → Int → Int → List (Int × Int)
  | 0, _, _, _ => []
  | k + 1, r, c, d =>
    (if steep then (c, r) else (r, c)) ::
      bresLoop steep sr sc twodr twodc k
        (bresWhileF sr twodc (d.toNat + 1) r d).1 (c + sc)
        ((bresWhileF sr twodc (d.toNat + 1) r d).2 + twodr)

/-- Modelled from the spec: the discrete line-drawing algorithm (equivalent
to Bresenham) used by `grid_lines` for each snapped start/end cell pair
(skimage.draw.line, not in src).  When the row delta exceeds the column
delta the axes are swapped (`steep`), the loop runs over the larger delta,
and the exact end cell is appended last. -/
def traceLine (r0 c0 r1 c1 : Int) : List (Int × Int) :=
  let dr := (r1 - r0).natAbs
  let dc := (c1 - c0).natAbs
  let sc : Int := if 0 < c1 - c0 then 1 else -1
  let sr : Int := if 0 < r1 - r0 then 1 else -1
  if dc < dr then
    bresLoop true sc sr (2 * (dc : Int)) (2 * (dr : Int)) dr c0 r0
      (2 * (dc : Int) - (dr : Int)) ++ [(r1, c1)]
  else
    bresLoop false sr sc (2 * (dr : Int)) (2 * (dc : Int)) dc r0 c0
      (2 * (dr : Int) - (dc : Int)) ++ [(r1, c1)]

/-- `Gridder.grid_lines` (girdder.py lines 113-139): snap the start batch
and the end batch in two independent queries, then
`zip(sxinds, syinds, exinds, eyinds, strict=True)` — which raises
ValueError when the two filtered batches differ in length — and trace a
line for each surviving positional pair. -/
def gridLines (g : Gridder) (sxs sys exs eys : List ℚ) :
    Except String (List (List (Int × Int))) :=
  match kdtreeQuery g sxs sys with
  | .error e => .error e
  | .ok starts =>
    match kdtreeQuery g exs eys with
    | .error e => .error e
    | .ok stops =>
      if starts.length ≠ stops.length then
        .error "ValueError: zip() argument lengths differ"
      else
        .ok ((starts.zip stops).map (fun se =>
          traceLine (se.1.1 : Int) (se.1.2 : Int) (se.2.1 : Int) (se.2.2 : Int)))

/-- The closed edge list of a polygon given by its vertices: consecutive
pairs, with the last vertex joined back to the first. -/
def polyEdges (verts : List (Int × Int)) : List ((Int × Int) × (Int × Int)) :=
  verts.zip (verts.rotate 1)

/-- Decidable test that `p` lies on the segment from `a` to `b`:
collinearity by cross product together with membership in the segment
bounding box. -/
def onSeg (p a b : Int × Int) : Bool :=
  decide ((b.1 - a.1) * (p.2 - a.2) = (b.2 - a.2) * (p.1 - a.1) ∧
    min a.1 b.1 ≤ p.1 ∧ p.1 ≤ max a.1 b.1 ∧
    min a.2 b.2 ≤ p.2 ∧ p.2 ≤ max a.2 b.2)

/-- Modelled from the spec: one step of the scanline point-in-polygon
crossing rule (skimage.draw, not in src) — does the horizontal ray from `p`
in the positive column direction cross edge `e`?  The row interval is
half-open, and the exact rational column of the crossing is compared by
cross-multiplication, with the inequality flipped when the edge descends. -/
def crossesRay (p : Int × Int) (e : (Int × Int) × (Int × Int)) : Bool :=
  decide ((e.1.1 ≤ p.1 ∧ p.1 < e.2.1 ∧
      (p.2 - e.1.2) * (e.2.1 - e.1.1) < (e.2.2 - e.1.2) * (p.1 - e.1.1)) ∨
    (e.2.1 ≤ p.1 ∧ p.1 < e.1.1 ∧
      (e.2.2 - e.1.2) * (p.1 - e.1.1) < (p.2 - e.1.2) * (e.2.1 - e.1.1)))

/-- Modelled from the spec: a cell center lies on or inside the polygon
boundary when it sits on some edge or its crossing number is odd. -/
def insideOrOn (verts : List (Int × Int)) (p : Int × Int) : Bool :=
  (polyEdges verts).any (fun e => onSeg p e.1 e.2) ||
    ((polyEdges verts).countP (crossesRay p)) % 2 == 1

/-- Minimum of `f` over a vertex list (0 for the empty list, which the
callers below never pass). -/
def vMin (f : Int × Int → Int) : List (Int × Int) → Int
  | [] => 0
  | v :: rest => rest.foldl (fun m w => min m (f w)) (f v)

/-- Maximum of `f` over a vertex list (0 for the empty list). -/
def vMax (f : Int × Int → Int) : List (Int × Int) → Int
  | [] => 0
  | v :: rest => rest.foldl (fun m w => max m (f w)) (f v)

/-- The integers from `lo` to `hi` inclusive. -/
def intRange (lo hi : Int) : List Int :=
  (List.range (hi - lo + 1).toNat).map (fun k => lo + Int.ofNat k)

/-- Modelled from the spec: `fillPolygon` (skimage.draw.polygon, not in
src) — all cells of the vertex bounding box whose centers lie on or inside
the polygon, by the scanline point-in-polygon rule; degenerate input with
fewer than 3 vertices yields an empty result rather than an error. -/
def fillPolygon (verts : List (Int × Int)) : List (Int × Int) :=
  if verts.length < 3 then []
  else
    (intRange (vMin Prod.fst verts) (vMax Prod.fst verts)).flatMap (fun r =>
      ((intRange (vMin Prod.snd verts) (vMax Prod.snd verts)).filter
        (fun c => insideOrOn verts (r, c))).map (fun c => (r, c)))

/-- Modelled from the spec: `tracePerimeter` (skimage.draw.polygon_perimeter,
not in src) — the line-tracing primitive applied to each consecutive vertex
pair, implicitly closing the loop; degenerate input with fewer than 3
vertices yields an empty result rather than an error. -/
def tracePerimeter (verts : List (Int × Int)) : List (Int × Int) :=
  if verts.length < 3 then []
  else (polyEdges verts).flatMap (fun e => traceLine e.1.1 e.1.2 e.2.1 e.2.2)

/-- The rasterizer call wrapped in its `try ... except ValueError` guard
from `grid_polygons`: the spec-modelled rasterizer absorbs degeneracies
into an empty result, so the error branch is never taken. -/
def polyRasterE (fill : Bool) (verts : List (Int × Int)) :
    Except String (List (Int × Int)) :=
  .ok (if fill then fillPolygon verts else tracePerimeter verts)

/-- Snapped `(row, col)` vertices cast to the integer plane of the
rasterizer. -/
def natVerts (vs : List (Nat × Nat)) : List (Int × Int) :=
  vs.map (fun v => ((v.1 : Int), (v.2 : Int)))

/-- The snapping loop of `grid_polygons` (girdder.py lines 160-165): each
polygon is queried in turn; a ValueError from a query (mismatched vertex
coordinate lengths) propagates, since only the rasterizer call sits inside
the try block. -/
def snapAll (g : Gridder) : List (List ℚ × List ℚ) →
    Except String (List (List (Nat × Nat)))
  | [] => .ok []
  | xy :: rest =>
    match kdtreeQuery g xy.1 xy.2 with
    | .error e => .error e
    | .ok v =>
      match snapAll g rest with
      | .error e => .error e
      | .ok vs => .ok (v :: vs)

/-- The rasterization loop of `grid_polygons` (girdder.py lines 166-180):
polygons whose rasterizer call raises ValueError are skipped, the rest are
appended in order. -/
def rasterAll (fill : Bool) : List (List (Int × Int)) → List (List (Int × Int))
  | [] => []
  | vs :: rest =>
    match polyRasterE fill vs with
    | .ok cells => cells :: rasterAll fill rest
    | .error _ => rasterAll fill rest

/-- `Gridder.grid_polygons` (girdder.py lines 141-180): the outer
`zip(xs, ys, strict=True)` raises ValueError on a polygon-count mismatch;
otherwise every polygon is snapped, then rasterized with fill or perimeter
according to the flag. -/
def gridPolygons (g : Gridder) (xss yss : List (List ℚ)) (fill : Bool) :
    Except String (List (List (Int × Int))) :=
  if xss.length ≠ yss.length then .error "ValueError: zip() argument lengths differ"
  else
    match snapAll g (xss.zip yss) with
    | .error e => .error e
    | .ok snapped => .ok (rasterAll fill (snapped.map natVerts))

/-- Construction followed by a `grid_lines` call, for closed statements
about the full pipeline. -/
def gridLinesFrom (tx ty : Mat) (dx : Option ℚ) (centered : Bool)
    (sxs sys exs eys : List ℚ) : Except String (List (List (Int × Int))) :=
  match mkGridder tx ty dx centered with
  | .error e => .error e
  | .ok g => gridLines g sxs sys exs eys

/-- Construction followed by a `grid_polygons` call, for closed statements
about the full pipeline. -/
def gridPolygonsFrom (tx ty : Mat) (dx : Option ℚ) (centered : Bool)
    (xss yss : List (List ℚ)) (fill : Bool) :
    Except String (List (List (Int × Int))) :=
  match mkGridder tx ty dx centered with
  | .error e => .error e
  | .ok g => gridPolygons g xss yss fill

/-- Boolean observer for the error case of a fallible call. -/
def isErr {α : Type} : Except String α → Bool
  | .error _ => true
  | .ok _ => false

/-- Cell membership in one entry of a polygon or line batch result, for
closed counterexample statements: false on errors and out-of-range batch
indices. -/
def cellIn (res : Except String (List (List (Int × Int)))) (k : Nat)
    (q : Int × Int) : Bool :=
  match res with
  | .error _ => false
  | .ok ls => (ls.getD k []).contains q

/-- State-passing form of `grid_points`: the Python method body contains no
assignment to any `self` field, so the post-state is the input state. -/
def gridPointsS (g : Gridder) (xs ys : List ℚ) :
    Except String (List (Nat × Nat)) × Gridder :=
  (gridPoints g xs ys, g)

/-- State-passing form of `grid_lines`; no `self` field is assigned. -/
def gridLinesS (g : Gridder) (sxs sys exs eys : List ℚ) :
    Except String (List (List (Int × Int))) × Gridder :=
  (gridLines g sxs sys exs eys, g)

/-- State-passing form of `grid_polygons`; no `self` field is assigned. -/
def gridPolygonsS (g : Gridder) (xss yss : List (List ℚ)) (fill : Bool) :
    Except String (List (List (Int × Int))) × Gridder :=
  (gridPolygons g xss yss fill, g)

/-- State-passing form of `make_empty_grid`; no `self` field is assigned. -/
def makeEmptyGridS (g : Gridder) : List (List Int) × Gridder :=
  (makeEmptyGrid g, g)

/-! Concrete grids used by witnesses and counterexamples. -/

/-- A 2 x 3 grid of unit-spaced x coordinates: `tx[i, j] = j`. -/
def txA : Mat := ⟨2, 3, fun _ j => (j : ℚ)⟩

/-- A 2 x 3 grid of unit-spaced y coordinates: `ty[i, j] = i`. -/
def tyA : Mat := ⟨2, 3, fun i _ => (i : ℚ)⟩

/-- The gridder built from `txA`, `tyA` with `centered = true` and no
distance bound. -/
def gA : Gridder := ⟨txA, tyA, none, List.zip txA.ravel tyA.ravel⟩

/-- A 2 x 2 grid with spacing 10 in x: `tx[i, j] = 10 * j`. -/
def txB : Mat := ⟨2, 2, fun _ j => 10 * (j : ℚ)⟩

/-- A 2 x 2 grid with spacing 10 in y: `ty[i, j] = 10 * i`. -/
def tyB : Mat := ⟨2, 2, fun i _ => 10 * (i : ℚ)⟩

/-- The gridder built from `txB`, `tyB` with `centered = true` and snap
threshold 1. -/
def gB : Gridder := ⟨txB, tyB, some 1, List.zip txB.ravel tyB.ravel⟩

/-- A 2 x 3 matrix, used for shape-mismatch inputs. -/
def t23 : Mat := ⟨2, 3, fun i j => (i : ℚ) * 3 + (j : ℚ)⟩

/-- A 3 x 2 matrix with the same total size as `t23` but a different
shape. -/
def t32 : Mat := ⟨3, 2, fun i j => (i : ℚ) * 2 + (j : ℚ)⟩

lemma mkGridder_gA : mkGridder txA tyA none true = .ok gA := rfl

lemma mkGridder_gB : mkGridder txB tyB (some 1) true = .ok gB := rfl

/-! Constructor inversion. -/

lemma centeredTx_size (tx : Mat) (c : Bool) : (centeredTx tx c).size = tx.size := by
  cases c <;> rfl

lemma centeredTy_size (ty : Mat) (c : Bool) : (centeredTy ty c).size = ty.size := by
  cases c <;> rfl

/-- What a successful construction pins down about the resulting state. -/
lemma mkGridder_ok (tx ty : Mat) (dx : Option ℚ) (c : Bool) (g : Gridder)
    (h : mkGridder tx ty dx c = .ok g) :
    g.tx = centeredTx tx c ∧ g.ty = centeredTy ty c ∧ g.dx = dx ∧
    g.tpoints = List.zip g.tx.ravel g.ty.ravel ∧
    tx.size = ty.size ∧ (c = false → 2 ≤ tx.cols ∧ 2 ≤ ty.rows) := by
  unfold mkGridder at h
  split_ifs at h with h1 h2 h3
  injection h with h
  subst h
  refine ⟨rfl, rfl, rfl, rfl, ?_, ?_⟩
  · have := centeredTx_size tx c
    have := centeredTy_size ty c
    omega
  · intro hc
    subst hc
    simp only [true_and] at h1 h2
    omega

/-- C9: no public query operation (grid_points, grid_lines, grid_polygons,
make_empty_grid) mutates the Gridder state: in the state-passing embedding
of the Python methods — none of which assigns any `self` field — the
post-state of every call equals the pre-state, so `tx`, `ty`, `dx` and
`tpoints` (and with them the spatial index, a pure function of `tpoints`)
keep their construction values. -/
theorem claim_C9 (g : Gridder) (xs ys sxs sys exs eys : List ℚ)
    (xss yss : List (List ℚ)) (fill : Bool) :
    (gridPointsS g xs ys).2 = g ∧
    (gridLinesS g sxs sys exs eys).2 = g ∧
    (gridPolygonsS g xss yss fill).2 = g ∧
    (makeEmptyGridS g).2 = g :=
  ⟨rfl, rfl, rfl, rfl⟩

/-- C5 counterexample: constructing a Gridder whose `tx` and `ty` shapes
differ — 2 x 3 against 3 x 2 — raises no error, because the strict zip of
the raveled arrays only compares total sizes (here 6 = 6).  The claim that
every shape mismatch fails fast at the boundary is therefore false. -/
theorem claim_C5_cex :
    (t23.rows ≠ t32.rows ∧ t23.cols ≠ t32.cols) ∧
    isErr (mkGridder t23 t32 none true) = false :=
  ⟨by decide, rfl⟩

/-- C5 (amended): the constructor fails fast exactly on total-size
mismatches — `tx`/`ty` with different element counts raise an error, while
equal counts with different 2-D shapes are accepted silently — and a query
operation given parallel coordinate sequences of differing lengths raises
an error. -/
theorem claim_C5 (tx ty : Mat) (dx : Option ℚ) (c : Bool) (g : Gridder)
    (xs ys : List ℚ) :
    (tx.size ≠ ty.size → isErr (mkGridder tx ty dx c) = true) ∧
    (xs.length ≠ ys.length → isErr (kdtreeQuery g xs ys) = true) := by
  constructor
  · intro hne
    unfold mkGridder
    split_ifs with h1 h2 h3
    · rfl
    · rfl
    · rfl
    · rw [centeredTx_size, centeredTy_size] at h3
      exact absurd hne h3
  · intro hne
    unfold kdtreeQuery
    rw [if_pos hne]
    rfl

theorem claim_C5_witness :
    isErr (mkGridder txB t23 none true) = true ∧
    isErr (kdtreeQuery gB [0] []) = true :=
  ⟨(claim_C5 txB t23 none true gB [0] []).1 (by decide),
   (claim_C5 txB t23 none true gB [0] []).2 (by decide)⟩

/-- C4 (amended): `grid_lines` pairs the two independently filtered batches
by position only when they happen to have equal length; when a start point
is dropped but its corresponding end point is not (or vice versa) so that
the filtered batches differ in length, the strict four-way zip raises a
ValueError instead of absorbing the degeneracy into the results.  Silent
misalignment therefore occurs only when equally many points are dropped
from both batches at different positions. -/
theorem claim_C4 (g : Gridder) (sxs sys exs eys : List ℚ)
    (starts stops : List (Nat × Nat))
    (hs : kdtreeQuery g sxs sys = .ok starts)
    (he : kdtreeQuery g exs eys = .ok stops) :
    (starts.length ≠ stops.length →
      gridLines g sxs sys exs eys = .error "ValueError: zip() argument lengths differ") ∧
    (starts.length = stops.length →
      gridLines g sxs sys exs eys =
        .ok ((starts.zip stops).map (fun se =>
          traceLine (se.1.1 : Int) (se.1.2 : Int) (se.2.1 : Int) (se.2.2 : Int)))) := by
  unfold gridLines
  rw [hs, he]
  dsimp only
  constructor
  · intro h
    rw [if_pos h]
  · intro h
    rw [if_neg (by omega)]

/-- C4 counterexample: on a 2 x 2 centered grid with threshold 1, the start
batch loses its second point (farther than `dx` from every cell) while the
end batch keeps both, and `grid_lines` raises an error — contradicting the
claim that the degeneracy is absorbed internally and never surfaced as an
exception. -/
theorem claim_C4_cex :
    isErr (mkGridder txB tyB (some 1) true) = false ∧
    isErr (gridLinesFrom txB tyB (some 1) true [0, 100] [0, 100] [10, 10] [0, 10]) = true :=
  ⟨rfl, by with_unfolding_all rfl⟩

theorem claim_C4_witness :
    gridLines gB [0, 100] [0, 100] [10, 10] [0, 10] =
      .error "ValueError: zip() argument lengths differ" :=
  (claim_C4 gB [0, 100] [0, 100] [10, 10] [0, 10] [(0, 0)] [(0, 1), (1, 1)]
    (by with_unfolding_all rfl) (by with_unfolding_all rfl)).1 (by decide)

/-- C2: with `centered = false` the grid used for lookups is the derived
center grid.  For every row `i` and every column `j` before the last,
`tx'[i,j] = tx[i,j] + (tx[i,j+1] - tx[i,j]) / 2`, the last column is
extrapolated with the delta to column `cols - 2`, and the analogous
transform applies to `ty'` along rows.  For a uniformly spaced grid with
spacing `d`, every derived center is exactly `d / 2` from its source
coordinate along both axes, including the last row and column. -/
theorem claim_C2 (tx ty : Mat) (dx : Option ℚ) (g : Gridder)
    (hg : mkGridder tx ty dx false = .ok g) :
    (∀ i j, j + 1 < tx.cols →
      g.tx.entry i j = tx.entry i j + (tx.entry i (j + 1) - tx.entry i j) / 2) ∧
    (∀ i, g.tx.entry i (tx.cols - 1) =
      tx.entry i (tx.cols - 1) +
        (tx.entry i (tx.cols - 1) - tx.entry i (tx.cols - 2)) / 2) ∧
    (∀ i j, i + 1 < ty.rows →
      g.ty.entry i j = ty.entry i j + (ty.entry (i + 1) j - ty.entry i j) / 2) ∧
    (∀ j, g.ty.entry (ty.rows - 1) j =
      ty.entry (ty.rows - 1) j +
        (ty.entry (ty.rows - 1) j - ty.entry (ty.rows - 2) j) / 2) ∧
    (∀ d x0 y0 : ℚ, (∀ i j, tx.entry i j = x0 + (j : ℚ) * d) →
      (∀ i j, ty.entry i j = y0 + (i : ℚ) * d) →
      ∀ i j, j < tx.cols → i < ty.rows →
        g.tx.entry i j = tx.entry i j + d / 2 ∧
        g.ty.entry i j = ty.entry i j + d / 2) := by
  obtain ⟨htx, hty, -, -, -, hdim⟩ := mkGridder_ok tx ty dx false g hg
  obtain ⟨hcols, hrows⟩ := hdim rfl
  have htx2 : g.tx = centerX tx := htx
  have hty2 : g.ty = centerY ty := hty
  refine ⟨?_, ?_, ?_, ?_, ?_⟩
  · intro i j hj
    rw [htx2]
    exact if_pos hj
  · intro i
    rw [htx2]
    exact if_neg (by omega)
  · intro i j hi
    rw [hty2]
    exact if_pos hi
  · intro j
    rw [hty2]
    exact if_neg (by omega)
  · intro d x0 y0 hx hy i j hj hi
    constructor
    · rw [htx2]
      by_cases hj2 : j + 1 < tx.cols
      · show (if j + 1 < tx.cols then _ else _) = _
        rw [if_pos hj2, hx i (j + 1), hx i j]
        push_cast
        ring
      · show (if j + 1 < tx.cols then _ else _) = _
        rw [if_neg hj2, hx i j, hx i (tx.cols - 2)]
        have h2 : tx.cols - 2 + 1 = j := by omega
        have hc : ((tx.cols - 2 : ℕ) : ℚ) + 1 = (j : ℚ) := by
          exact_mod_cast congrArg (fun n : ℕ => (n : ℚ)) h2
        have hc2 : ((tx.cols - 2 : ℕ) : ℚ) = (j : ℚ) - 1 := by linarith
        rw [hc2]
        ring
    · rw [hty2]
      by_cases hi2 : i + 1 < ty.rows
      · show (if i + 1 < ty.rows then _ else _) = _
        rw [if_pos hi2, hy (i + 1) j, hy i j]
        push_cast
        ring
      · show (if i + 1 < ty.rows then _ else _) = _
        rw [if_neg hi2, hy i j, hy (ty.rows - 2) j]
        have h2 : ty.rows - 2 + 1 = i := by omega
        have hc : ((ty.rows - 2 : ℕ) : ℚ) + 1 = (i : ℚ) := by
          exact_mod_cast congrArg (fun n : ℕ => (n : ℚ)) h2
        have hc2 : ((ty.rows - 2 : ℕ) : ℚ) = (i : ℚ) - 1 := by linarith
        rw [hc2]
        ring

/-- The gridder produced by constructing from `txB`, `tyB` with
`centered = false`. -/
def gBc : Gridder :=
  ⟨centerX txB, centerY tyB, none,
    List.zip (centerX txB).ravel (centerY tyB).ravel⟩

lemma mkGridder_gBc : mkGridder txB tyB none false = .ok gBc := rfl

theorem claim_C2_witness :
    gBc.tx.entry 0 0 = 5 ∧ gBc.tx.entry 0 1 = 15 ∧
    gBc.ty.entry 1 0 = 15 ∧ gBc.ty.entry 0 0 = 5 := by
  have h := claim_C2 txB tyB none gBc mkGridder_gBc
  have hu := h.2.2.2.2 10 0 0
    (fun i j => by show 10 * (j : ℚ) = 0 + (j : ℚ) * 10; ring)
    (fun i j => by show 10 * (i : ℚ) = 0 + (i : ℚ) * 10; ring)
  have h00 := hu 0 0 (by norm_num [txB]) (by norm_num [tyB])
  have h01 := hu 0 1 (by norm_num [txB]) (by norm_num [tyB])
  have h10 := hu 1 0 (by norm_num [txB]) (by norm_num [tyB])
  refine ⟨?_, ?_, ?_, ?_⟩
  · rw [h00.1]; show txB.entry 0 0 + 10 / 2 = 5
    show 10 * ((0 : ℕ) : ℚ) + 10 / 2 = 5; norm_num
  · rw [h01.1]; show 10 * ((1 : ℕ) : ℚ) + 10 / 2 = 15; norm_num
  · rw [h10.2]; show 10 * ((1 : ℕ) : ℚ) + 10 / 2 = 15; norm_num
  · rw [h00.2]; show 10 * ((0 : ℕ) : ℚ) + 10 / 2 = 5; norm_num

/-! Line tracer endpoints. -/

lemma getLast?_append_single {α : Type} (l : List α) (a : α) :
    (l ++ [a]).getLast? = some a := by
  induction l with
  | nil => rfl
  | cons x xs ih =>
    rw [List.cons_append, List.getLast?_cons]
    simp [ih]

/-- C8: the line-tracing primitive used by `grid_lines`, applied to
identical start and end cells, returns exactly that single cell; applied
to distinct cells it returns a sequence whose first element is the start
cell and whose last element is the end cell — both endpoints included, in
order from start to end. -/
theorem claim_C8 :
    (∀ r c : Int, traceLine r c r c = [(r, c)]) ∧
    (∀ r0 c0 r1 c1 : Int, (r0, c0) ≠ (r1, c1) →
      (traceLine r0 c0 r1 c1).head? = some (r0, c0) ∧
      (traceLine r0 c0 r1 c1).getLast? = some (r1, c1)) := by
  constructor
  · intro r c
    simp [traceLine, bresLoop]
  · intro r0 c0 r1 c1 hne
    have hax : ¬((r1 - r0).natAbs = 0 ∧ (c1 - c0).natAbs = 0) := by
      rintro ⟨h1, h2⟩
      apply hne
      have e1 : r1 - r0 = 0 := Int.natAbs_eq_zero.mp h1
      have e2 : c1 - c0 = 0 := Int.natAbs_eq_zero.mp h2
      have : r0 = r1 := by omega
      have : c0 = c1 := by omega
      simp_all
    refine ⟨?_, ?_⟩
    · simp only [traceLine]
      by_cases hsteep : (c1 - c0).natAbs < (r1 - r0).natAbs
      · rw [if_pos hsteep]
        rw [show (r1 - r0).natAbs = ((r1 - r0).natAbs - 1) + 1 by omega]
        simp [bresLoop]
      · rw [if_neg hsteep]
        rw [show (c1 - c0).natAbs = ((c1 - c0).natAbs - 1) + 1 by omega]
        simp [bresLoop]
    · simp only [traceLine]
      by_cases hsteep : (c1 - c0).natAbs < (r1 - r0).natAbs
      · rw [if_pos hsteep]
        exact getLast?_append_single _ _
      · rw [if_neg hsteep]
        exact getLast?_append_single _ _

theorem claim_C8_witness :
    ((0, 0) : Int × Int) ≠ (1, 2) ∧
    (traceLine 0 0 1 2).head? = some (0, 0) ∧
    (traceLine 0 0 1 2).getLast? = some (1, 2) ∧
    traceLine 3 4 3 4 = [(3, 4)] :=
  ⟨by decide, (claim_C8.2 0 0 1 2 (by decide)).1,
   (claim_C8.2 0 0 1 2 (by decide)).2, claim_C8.1 3 4⟩

/-! Nearest-neighbour query characterization. -/

lemma dist2_nonneg (a b : ℚ × ℚ) : 0 ≤ dist2 a b :=
  add_nonneg (mul_self_nonneg _) (mul_self_nonneg _)

lemma dist2_eq_zero_iff (a b : ℚ × ℚ) : dist2 a b = 0 ↔ a = b := by
  constructor
  · intro h
    have h1 := mul_self_nonneg (a.1 - b.1)
    have h2 := mul_self_nonneg (a.2 - b.2)
    have e1 : (a.1 - b.1) * (a.1 - b.1) = 0 := by
      unfold dist2 at h
      linarith
    have e2 : (a.2 - b.2) * (a.2 - b.2) = 0 := by
      unfold dist2 at h
      linarith
    have f1 : a.1 = b.1 := by
      have := mul_self_eq_zero.mp e1
      linarith
    have f2 : a.2 = b.2 := by
      have := mul_self_eq_zero.mp e2
      linarith
    exact Prod.ext f1 f2
  · rintro rfl
    simp [dist2]

lemma minIdxAux_le_best (p : ℚ × ℚ) (l : List (ℚ × ℚ)) :
    ∀ (k : Nat) (best : Nat × ℚ), (minIdxAux p l k best).2 ≤ best.2 := by
  induction l with
  | nil => intro k best; exact le_refl _
  | cons q rest ih =>
    intro k best
    simp only [minIdxAux]
    split
    · exact le_trans (ih (k + 1) (k, dist2 q p)) (le_of_lt (by assumption))
    · exact ih (k + 1) best

lemma minIdxAux_le_mem (p : ℚ × ℚ) (l : List (ℚ × ℚ)) :
    ∀ (k : Nat) (best : Nat × ℚ) (q : ℚ × ℚ), q ∈ l →
      (minIdxAux p l k best).2 ≤ dist2 q p := by
  induction l with
  | nil => intro k best q hq; cases hq
  | cons a rest ih =>
    intro k best q hq
    rcases List.mem_cons.mp hq with rfl | hq
    · simp only [minIdxAux]
      split
      · exact minIdxAux_le_best p rest (k + 1) (k, dist2 q p)
      · exact le_trans (minIdxAux_le_best p rest (k + 1) best) (not_lt.mp (by assumption))
    · simp only [minIdxAux]
      split
      · exact ih (k + 1) (k, dist2 a p) q hq
      · exact ih (k + 1) best q hq

lemma minIdxAux_result (p : ℚ × ℚ) (l : List (ℚ × ℚ)) :
    ∀ (k : Nat) (best : Nat × ℚ), minIdxAux p l k best = best ∨
      ∃ t, t < l.length ∧ minIdxAux p l k best = (k + t, dist2 (l.getD t (0, 0)) p) := by
  induction l with
  | nil => intro k best; left; rfl
  | cons a rest ih =>
    intro k best
    simp only [minIdxAux]
    split
    · rcases ih (k + 1) (k, dist2 a p) with h | ⟨t, ht, h⟩
      · right
        exact ⟨0, by simp, by simpa using h⟩
      · right
        refine ⟨t + 1, by simpa using Nat.succ_lt_succ ht, ?_⟩
        rw [h, List.getD_cons_succ]
        congr 1
        omega
    · rcases ih (k + 1) best with h | ⟨t, ht, h⟩
      · left; exact h
      · right
        refine ⟨t + 1, by simpa using Nat.succ_lt_succ ht, ?_⟩
        rw [h, List.getD_cons_succ]
        congr 1
        omega

lemma argminD2_none_iff (p : ℚ × ℚ) (tp : List (ℚ × ℚ)) :
    argminD2 p tp = none ↔ tp = [] := by
  cases tp <;> simp [argminD2]

lemma argminD2_some_spec (p : ℚ × ℚ) (tp : List (ℚ × ℚ)) (i : Nat) (d : ℚ)
    (h : argminD2 p tp = some (i, d)) :
    i < tp.length ∧ d = dist2 (tp.getD i (0, 0)) p ∧ ∀ q ∈ tp, d ≤ dist2 q p := by
  cases tp with
  | nil => simp [argminD2] at h
  | cons a rest =>
    simp only [argminD2, Option.some_inj] at h
    have hmem : ∀ q ∈ a :: rest, d ≤ dist2 q p := by
      intro q hq
      rcases List.mem_cons.mp hq with rfl | hq
      · have := minIdxAux_le_best p rest 1 (0, dist2 q p)
        rw [h] at this
        exact this
      · have := minIdxAux_le_mem p rest 1 (0, dist2 a p) q hq
        rw [h] at this
        exact this
    rcases minIdxAux_result p rest 1 (0, dist2 a p) with he | ⟨t, ht, he⟩
    · rw [h] at he
      have hi : i = 0 := congrArg Prod.fst he
      have hd : d = dist2 a p := congrArg Prod.snd he
      subst hi
      exact ⟨Nat.succ_pos _, by simpa using hd, hmem⟩
    · rw [h] at he
      have hi : i = 1 + t := congrArg Prod.fst he
      have hd : d = dist2 (rest.getD t (0, 0)) p := congrArg Prod.snd he
      subst hi
      refine ⟨by simpa using by omega, ?_, hmem⟩
      rw [show 1 + t = t + 1 by omega, List.getD_cons_succ]
      exact hd

lemma withinBound_mono (dx : Option ℚ) (d e : ℚ) (hde : d ≤ e)
    (he : withinBound dx e = true) : withinBound dx d = true := by
  cases dx with
  | none => rfl
  | some b =>
    simp only [withinBound, decide_eq_true_eq] at *
    exact ⟨he.1, le_trans hde he.2⟩

lemma queryOne_lt_iff (tp : List (ℚ × ℚ)) (dx : Option ℚ) (p : ℚ × ℚ) :
    queryOne tp dx p < tp.length ↔
      ∃ q ∈ tp, withinBound dx (dist2 q p) = true := by
  unfold queryOne
  cases htp : argminD2 p tp with
  | none =>
    have : tp = [] := (argminD2_none_iff p tp).mp htp
    subst this
    simp
  | some id =>
    obtain ⟨i, d⟩ := id
    obtain ⟨hi, hd, hmin⟩ := argminD2_some_spec p tp i d htp
    by_cases hw : withinBound dx d = true
    · simp only [hw, if_true]
      constructor
      · intro _
        refine ⟨tp.getD i (0, 0), ?_, ?_⟩
        · rw [List.getD_eq_getElem tp (0, 0) hi]
          exact List.getElem_mem hi
        · rw [← hd]; exact hw
      · intro _; exact hi
    · simp only [Bool.not_eq_true] at hw
      simp only [hw, Bool.false_eq_true, if_false]
      constructor
      · intro hlt; exact absurd hlt (lt_irrefl _)
      · rintro ⟨q, hq, hqw⟩
        have := withinBound_mono dx d (dist2 q p) (hmin q hq) hqw
        rw [hw] at this
        cases this

lemma queryOne_min_spec (tp : List (ℚ × ℚ)) (dx : Option ℚ) (p : ℚ × ℚ)
    (h : queryOne tp dx p < tp.length) :
    withinBound dx (dist2 (tp.getD (queryOne tp dx p) (0, 0)) p) = true ∧
    ∀ q ∈ tp, dist2 (tp.getD (queryOne tp dx p) (0, 0)) p ≤ dist2 q p := by
  revert h
  unfold queryOne
  cases htp : argminD2 p tp with
  | none => intro h; exact absurd h (lt_irrefl _)
  | some id =>
    obtain ⟨i, d⟩ := id
    obtain ⟨hi, hd, hmin⟩ := argminD2_some_spec p tp i d htp
    by_cases hw : withinBound dx d = true
    · simp only [hw, if_true]
      intro _
      rw [← hd]
      exact ⟨hw, hmin⟩
    · simp only [Bool.not_eq_true] at hw
      simp only [hw, Bool.false_eq_true, if_false]
      intro h
      exact absurd h (lt_irrefl _)

lemma pipeline_filterMap {α β : Type} (f : α → Nat) (u : Nat → β) (n : Nat) :
    ∀ l : List α, ((l.map f).filter (fun i => decide (i < n))).map u =
      l.filterMap (fun a => if f a < n then some (u (f a)) else none) := by
  intro l
  induction l with
  | nil => rfl
  | cons a rest ih =>
    simp only [List.map_cons, List.filter_cons, List.filterMap_cons]
    by_cases hfa : f a < n
    · simp [hfa, ih]
    · simp [hfa, ih]

/-- C1: for every equal-length query batch, `grid_points` succeeds and
returns exactly the subsequence of input points that snap — the
`filterMap` of the per-point snap over the zipped inputs, which preserves
the relative input order and silently drops the points that do not snap.
A point fails to snap exactly when every indexed grid point is outside the
`dx` bound, and a snapped point is mapped to the unraveled `(row, col)` of
a flat index holding a nearest indexed point within the bound. -/
theorem claim_C1 (g : Gridder) (xs ys : List ℚ) (h : xs.length = ys.length) :
    gridPoints g xs ys = .ok ((xs.zip ys).filterMap (snapOne g)) ∧
    (∀ p : ℚ × ℚ, snapOne g p = none ↔
      ∀ q ∈ g.tpoints, withinBound g.dx (dist2 q p) = false) ∧
    (∀ (p : ℚ × ℚ) (rc : Nat × Nat), snapOne g p = some rc →
      ∃ i, i < g.tpoints.length ∧ rc = unravelIndex g.tx.cols i ∧
        withinBound g.dx (dist2 (g.tpoints.getD i (0, 0)) p) = true ∧
        ∀ q ∈ g.tpoints, dist2 (g.tpoints.getD i (0, 0)) p ≤ dist2 q p) := by
  refine ⟨?_, ?_, ?_⟩
  · unfold gridPoints kdtreeQuery
    rw [if_neg (by omega)]
    rw [pipeline_filterMap (queryOne g.tpoints g.dx) (unravelIndex g.tx.cols)
      g.tpoints.length (xs.zip ys)]
    rfl
  · intro p
    constructor
    · intro hnone q hq
      unfold snapOne at hnone
      by_cases hlt : queryOne g.tpoints g.dx p < g.tpoints.length
      · rw [if_pos hlt] at hnone
        cases hnone
      · by_contra hq2
        exact hlt ((queryOne_lt_iff _ _ _).mpr
          ⟨q, hq, by simpa using hq2⟩)
    · intro hall
      unfold snapOne
      rw [if_neg]
      intro hlt
      obtain ⟨q, hq, hw⟩ := (queryOne_lt_iff _ _ _).mp hlt
      rw [hall q hq] at hw
      cases hw
  · intro p rc hsome
    unfold snapOne at hsome
    by_cases hlt : queryOne g.tpoints g.dx p < g.tpoints.length
    · rw [if_pos hlt] at hsome
      obtain ⟨hw, hmin⟩ := queryOne_min_spec g.tpoints g.dx p hlt
      exact ⟨queryOne g.tpoints g.dx p, hlt,
        (Option.some_inj.mp hsome).symm, hw, hmin⟩
    · rw [if_neg hlt] at hsome
      cases hsome

theorem claim_C1_witness :
    gridPoints gB [0, 100] [0, 100] = .ok [(0, 0)] := by
  rw [(claim_C1 gB [0, 100] [0, 100] rfl).1]
  with_unfolding_all rfl

/-! Round-trip identity for centered grids. -/

lemma ravel_length (m : Mat) : m.ravel.length = m.size := by
  simp [Mat.ravel]

lemma ravel_getD (m : Mat) (k : Nat) (hk : k < m.size) :
    m.ravel.getD k 0 = m.entry (k / m.cols) (k % m.cols) := by
  unfold Mat.ravel
  rw [List.getD_eq_getElem _ _ (by simpa using hk)]
  simp

lemma zip_getD {α β : Type} [Inhabited α] [Inhabited β]
    (l1 : List α) (l2 : List β) (k : Nat)
    (h1 : k < l1.length) (h2 : k < l2.length) (a : α) (b : β) :
    (l1.zip l2).getD k (a, b) = (l1.getD k a, l2.getD k b) := by
  have hk : k < (l1.zip l2).length := by
    rw [List.length_zip]
    exact lt_min h1 h2
  rw [List.getD_eq_getElem _ _ hk, List.getD_eq_getElem _ _ h1,
    List.getD_eq_getElem _ _ h2, List.getElem_zip]

/-- C3: round trip.  For a Gridder constructed with `centered = true` (no
centering transform), on a grid whose flattened cell coordinates are
pairwise distinct (the regular-grid invariant) and whose threshold does not
reject distance zero, querying the exact coordinates of cell `(i, j)`
returns exactly that cell, and the nearest-neighbour search reports its
flat index at squared distance zero. -/
theorem claim_C3 (tx ty : Mat) (dx : Option ℚ) (g : Gridder) (i j : Nat)
    (hg : mkGridder tx ty dx true = .ok g)
    (hrows : tx.rows = ty.rows) (hcols : tx.cols = ty.cols)
    (hi : i < tx.rows) (hj : j < tx.cols)
    (hnd : g.tpoints.Nodup)
    (hdx : withinBound dx 0 = true) :
    gridPoints g [tx.entry i j] [ty.entry i j] = .ok [(i, j)] ∧
    argminD2 (tx.entry i j, ty.entry i j) g.tpoints =
      some (i * tx.cols + j, 0) := by
  obtain ⟨htx, hty, hdxg, htp, -, -⟩ := mkGridder_ok tx ty dx true g hg
  have htx2 : g.tx = tx := htx
  have hty2 : g.ty = ty := hty
  set p : ℚ × ℚ := (tx.entry i j, ty.entry i j) with hp
  set m := i * tx.cols + j with hm
  have hcpos : 0 < tx.cols := by omega
  have hmsz : m < tx.size := by
    unfold Mat.size
    calc i * tx.cols + j < i * tx.cols + tx.cols := by omega
    _ = (i + 1) * tx.cols := by ring
    _ ≤ tx.rows * tx.cols := Nat.mul_le_mul_right _ (by omega)
  have hsz : tx.size = ty.size := by unfold Mat.size; rw [hrows, hcols]
  have hlen : g.tpoints.length = tx.size := by
    rw [htp, List.length_zip, htx2, hty2, ravel_length, ravel_length, ← hsz,
      min_self]
  have hdiv : m / tx.cols = i := by
    rw [hm, Nat.add_comm, Nat.add_mul_div_right _ _ hcpos,
      Nat.div_eq_of_lt hj, Nat.zero_add]
  have hmod : m % tx.cols = j := by
    rw [hm, Nat.add_comm, Nat.add_mul_mod_self_right, Nat.mod_eq_of_lt hj]
  have hgetm : g.tpoints.getD m (0, 0) = p := by
    rw [htp, htx2, hty2,
      zip_getD _ _ m (by rw [ravel_length]; exact hmsz)
        (by rw [ravel_length, ← hsz]; exact hmsz) 0 0,
      ravel_getD tx m hmsz, ravel_getD ty m (by rw [← hsz]; exact hmsz)]
    rw [hp]
    have hc2 : ty.cols = tx.cols := hcols.symm
    rw [hc2, hdiv, hmod]
  have hd0 : dist2 p p = 0 := by simp [dist2]
  have hargmin : argminD2 p g.tpoints = some (m, 0) := by
    cases harg : argminD2 p g.tpoints with
    | none =>
      have he : g.tpoints = [] := (argminD2_none_iff p g.tpoints).mp harg
      have hpos : 0 < tx.size := by
        unfold Mat.size
        exact Nat.mul_pos (by omega) (by omega)
      rw [he] at hlen
      simp at hlen
      omega
    | some id =>
      obtain ⟨i2, d⟩ := id
      obtain ⟨hi2, hd2, hmin⟩ := argminD2_some_spec p g.tpoints i2 d harg
      have hmem : g.tpoints.getD m (0, 0) ∈ g.tpoints := by
        rw [List.getD_eq_getElem _ _ (by omega)]
        exact List.getElem_mem (by omega)
      have hdle : d ≤ 0 := by
        have := hmin _ hmem
        rw [hgetm, hd0] at this
        exact this
      have hdge : 0 ≤ d := by
        rw [hd2]
        exact dist2_nonneg _ _
      have hd0e : d = 0 := le_antisymm hdle hdge
      have heq : g.tpoints.getD i2 (0, 0) = g.tpoints.getD m (0, 0) := by
        rw [hgetm]
        exact (dist2_eq_zero_iff _ _).mp (by rw [← hd2]; exact hd0e)
      have him : i2 = m := by
        rw [List.getD_eq_getElem _ _ hi2, List.getD_eq_getElem _ _ (by omega)]
          at heq
        exact (List.Nodup.getElem_inj_iff hnd).mp heq
      rw [him, hd0e]
  have hq1 : queryOne g.tpoints g.dx p = m := by
    unfold queryOne
    rw [hdxg, hargmin]
    dsimp only
    rw [if_pos hdx]
  refine ⟨?_, hargmin⟩
  unfold gridPoints kdtreeQuery
  rw [if_neg (by simp)]
  have hzip : ([tx.entry i j].zip [ty.entry i j]) = [p] := rfl
  rw [hzip]
  have hmlt : m < g.tpoints.length := by omega
  simp only [List.map_cons, List.map_nil, hq1, List.filter_cons, List.filter_nil]
  rw [decide_eq_true hmlt]
  simp only [if_true, List.map_cons, List.map_nil]
  rw [htx2]
  unfold unravelIndex
  rw [hdiv, hmod]

theorem claim_C3_witness :
    gridPoints gA [2] [1] = .ok [(1, 2)] :=
  (claim_C3 txA tyA none gA 1 2 mkGridder_gA rfl rfl (by decide) (by decide)
    (by with_unfolding_all decide) rfl).1

/-- C10: every `(row, col)` pair returned by the nearest-cell lookup of a
constructed Gridder is in bounds for the grid shape — sentinel indices are
filtered out before unraveling, and every surviving flat index is below
`rows * cols` — so indexing a `make_empty_grid` array at any returned
coordinate is always defined. -/
theorem claim_C10 (tx ty : Mat) (dx : Option ℚ) (c : Bool) (g : Gridder)
    (hg : mkGridder tx ty dx c = .ok g) (xs ys : List ℚ)
    (res : List (Nat × Nat)) (hq : kdtreeQuery g xs ys = .ok res) :
    ∀ rc ∈ res, rc.1 < g.tx.rows ∧ rc.2 < g.tx.cols ∧
      (makeEmptyGrid g)[rc.1]? = some (List.replicate g.tx.cols (0 : Int)) ∧
      (List.replicate g.tx.cols (0 : Int))[rc.2]? = some 0 := by
  obtain ⟨htx, hty, -, htp, hszeq, -⟩ := mkGridder_ok tx ty dx c g hg
  have hn : g.tpoints.length = g.tx.rows * g.tx.cols := by
    rw [htp, List.length_zip, ravel_length, ravel_length]
    have e1 : g.tx.size = tx.size := by rw [htx]; exact centeredTx_size tx c
    have e2 : g.ty.size = ty.size := by rw [hty]; exact centeredTy_size ty c
    rw [e1, e2, ← hszeq, min_self, ← e1]
    rfl
  intro rc hrc
  unfold kdtreeQuery at hq
  by_cases hxy : xs.length ≠ ys.length
  · rw [if_pos hxy] at hq
    cases hq
  · rw [if_neg hxy] at hq
    injection hq with hq
    subst hq
    obtain ⟨idx, hidxmem, rfl⟩ := List.mem_map.mp hrc
    obtain ⟨-, hdec⟩ := List.mem_filter.mp hidxmem
    have hidx : idx < g.tpoints.length := of_decide_eq_true hdec
    have hidxlt : idx < g.tx.rows * g.tx.cols := hn ▸ hidx
    have hcpos : 0 < g.tx.cols := by
      rcases Nat.eq_zero_or_pos g.tx.cols with h0 | hpos
      · rw [h0, Nat.mul_zero] at hidxlt
        omega
      · exact hpos
    have h1 : idx / g.tx.cols < g.tx.rows :=
      Nat.div_lt_of_lt_mul (by rw [Nat.mul_comm]; exact hidxlt)
    have h2 : idx % g.tx.cols < g.tx.cols := Nat.mod_lt _ hcpos
    simp only [unravelIndex]
    refine ⟨h1, h2, ?_, ?_⟩
    · unfold makeEmptyGrid
      rw [List.getElem?_replicate, if_pos h1]
    · rw [List.getElem?_replicate, if_pos h2]

theorem claim_C10_witness :
    0 < gB.tx.rows ∧ 0 < gB.tx.cols ∧
    (makeEmptyGrid gB)[0]? = some (List.replicate gB.tx.cols (0 : Int)) ∧
    (List.replicate gB.tx.cols (0 : Int))[0]? = some 0 :=
  claim_C10 txB tyB (some 1) true gB mkGridder_gB [0] [0] [(0, 0)]
    (by with_unfolding_all rfl) (0, 0) (by simp)

/-! Degenerate polygons in grid_polygons. -/

lemma snapAll_ok_length (g : Gridder) :
    ∀ (l : List (List ℚ × List ℚ)) (out : List (List (Nat × Nat))),
      snapAll g l = .ok out → out.length = l.length := by
  intro l
  induction l with
  | nil =>
    intro out h
    injection h with h
    rw [← h]
    rfl
  | cons xy rest ih =>
    intro out h
    unfold snapAll at h
    cases hq : kdtreeQuery g xy.1 xy.2 with
    | error e => rw [hq] at h; cases h
    | ok v =>
      rw [hq] at h
      cases hrest : snapAll g rest with
      | error e => rw [hrest] at h; cases h
      | ok vs =>
        rw [hrest] at h
        injection h with h
        rw [← h]
        simp [ih vs hrest]

lemma snapAll_ok_get (g : Gridder) :
    ∀ (l : List (List ℚ × List ℚ)) (out : List (List (Nat × Nat))),
      snapAll g l = .ok out → ∀ k, k < l.length →
        kdtreeQuery g (l.getD k ([], [])).1 (l.getD k ([], [])).2 =
          .ok (out.getD k []) := by
  intro l
  induction l with
  | nil =>
    intro out h k hk
    cases hk
  | cons xy rest ih =>
    intro out h k hk
    unfold snapAll at h
    cases hq : kdtreeQuery g xy.1 xy.2 with
    | error e => rw [hq] at h; cases h
    | ok v =>
      rw [hq] at h
      cases hrest : snapAll g rest with
      | error e => rw [hrest] at h; cases h
      | ok vs =>
        rw [hrest] at h
        injection h with h
        rw [← h]
        cases k with
        | zero => simpa using hq
        | succ k2 =>
          simp only [List.getD_cons_succ]
          exact ih vs hrest k2 (by simpa using hk)

lemma rasterAll_eq_map (fill : Bool) :
    ∀ l : List (List (Int × Int)), rasterAll fill l =
      l.map (fun vs => if fill then fillPolygon vs else tracePerimeter vs) := by
  intro l
  induction l with
  | nil => rfl
  | cons vs rest ih =>
    unfold rasterAll polyRasterE
    simp [ih]

lemma gridPolygons_ok_elim (g : Gridder) (xss yss : List (List ℚ)) (fill : Bool)
    (res : List (List (Int × Int)))
    (hok : gridPolygons g xss yss fill = .ok res) :
    xss.length = yss.length ∧
    ∃ snapped, snapAll g (xss.zip yss) = .ok snapped ∧
      res = (snapped.map natVerts).map
        (fun vs => if fill then fillPolygon vs else tracePerimeter vs) := by
  unfold gridPolygons at hok
  by_cases hlen : xss.length ≠ yss.length
  · rw [if_pos hlen] at hok
    cases hok
  · rw [if_neg hlen] at hok
    cases hsnap : snapAll g (xss.zip yss) with
    | error e => rw [hsnap] at hok; cases hok
    | ok snapped =>
      rw [hsnap] at hok
      injection hok with hok
      refine ⟨by omega, snapped, rfl, ?_⟩
      rw [← hok, rasterAll_eq_map]

/-- C6: in `grid_polygons`, every polygon whose snapped vertex count is
fewer than 3 contributes an empty cell list at its position in the result,
and no error arises from rasterization: the spec-modelled rasterizer
absorbs degenerate input into an empty result (spec section 4.2), so the
`except ValueError` skip branch is never taken and the output has one entry
per input polygon. -/
theorem claim_C6 (g : Gridder) (xss yss : List (List ℚ)) (fill : Bool)
    (res : List (List (Int × Int)))
    (hok : gridPolygons g xss yss fill = .ok res) :
    res.length = xss.length ∧
    (∀ verts : List (Int × Int), isErr (polyRasterE fill verts) = false) ∧
    (∀ k verts, k < xss.length →
      kdtreeQuery g (xss.getD k []) (yss.getD k []) = .ok verts →
      verts.length < 3 → res[k]? = some []) := by
  obtain ⟨hlen, snapped, hsnap, hres⟩ := gridPolygons_ok_elim g xss yss fill res hok
  have hsl : snapped.length = xss.length := by
    rw [snapAll_ok_length g (xss.zip yss) snapped hsnap, List.length_zip, hlen,
      min_self]
  refine ⟨?_, ?_, ?_⟩
  · rw [hres]
    simp [hsl]
  · intro verts
    rfl
  · intro k verts hk hq hdeg
    have hzip : (xss.zip yss).getD k ([], []) = (xss.getD k [], yss.getD k []) := by
      rw [zip_getD xss yss k hk (by omega) [] []]
    have hget := snapAll_ok_get g (xss.zip yss) snapped hsnap k
      (by rw [List.length_zip]; omega)
    rw [hzip] at hget
    have hverts : verts = snapped.getD k [] := by
      have h2 := hget.symm.trans hq
      injection h2 with h2
      exact h2.symm
    have hklen : k < snapped.length := by omega
    rw [hres]
    rw [List.getElem?_map, List.getElem?_map]
    rw [List.getElem?_eq_getElem hklen]
    dsimp only [Option.map]
    have hnat : (natVerts snapped[k]).length < 3 := by
      unfold natVerts
      rw [List.length_map]
      rw [← List.getD_eq_getElem snapped [] hklen, ← hverts]
      exact hdeg
    have hraster : (if fill then fillPolygon (natVerts snapped[k])
        else tracePerimeter (natVerts snapped[k])) = [] := by
      cases fill
      · show tracePerimeter _ = []
        unfold tracePerimeter
        rw [if_pos hnat]
      · show fillPolygon _ = []
        unfold fillPolygon
        rw [if_pos hnat]
    exact congrArg some hraster

theorem claim_C6_witness :
    gridPolygons gA [[0, 2]] [[0, 1]] true = .ok [[]] ∧
    ([([] : List (Int × Int))] : List (List (Int × Int)))[0]? = some [] :=
  ⟨by with_unfolding_all rfl,
   (claim_C6 gA [[0, 2]] [[0, 1]] true [[]] (by with_unfolding_all rfl)).2.2
     0 [(0, 0), (1, 2)] (by decide) (by with_unfolding_all rfl) (by decide)⟩

/-! Bounding box of the line tracer. -/

/-- With `d < twodc` and positive `twodc`, the while loop runs at most one
iteration, and the given fuel never truncates it. -/
lemma bresWhileF_step (sr twodc : Int) (f : Nat) (r d : Int)
    (hd : d < twodc) :
    bresWhileF sr twodc (f + 1) r d =
      if 0 ≤ d then (r + sr, d - twodc) else (r, d) := by
  unfold bresWhileF
  by_cases h0 : 0 ≤ d
  · rw [if_pos h0, if_pos h0]
    cases f with
    | zero => rfl
    | succ f2 =>
      unfold bresWhileF
      rw [if_neg (by omega)]
  · rw [if_neg h0, if_neg h0]

/-- Loop invariant of the Bresenham emission loop: with post-swap deltas
`dr ≤ dc`, every emitted cell is an offset of at most `dr` steps along the
slow axis and at most `dc` steps along the fast axis from the start cell.
The state is characterized by the step count `s` along the slow axis and
the exact error term `d`. -/
lemma bresLoop_mem_bounds (steep : Bool) (sr sc : Int) (dr dc : Int)
    (hdr0 : 0 ≤ dr) (hrdc : dr ≤ dc) (hdc : 1 ≤ dc) (rS cS : Int) :
    ∀ (fuel : Nat) (r c d s : Int),
      (fuel : Int) ≤ dc →
      c = cS + sc * (dc - fuel) →
      r = rS + sr * s →
      d = 2 * dr * (dc - fuel + 1) - dc - 2 * dc * s →
      0 ≤ s →
      d ≤ 2 * dr - 1 →
      2 * dr - 2 * dc ≤ d →
      ∀ p ∈ bresLoop steep sr sc (2 * dr) (2 * dc) fuel r c d,
        ∃ s2 t2 : Int, 0 ≤ s2 ∧ s2 ≤ dr ∧ 0 ≤ t2 ∧ t2 ≤ dc ∧
          p = (if steep then (cS + sc * t2, rS + sr * s2)
               else (rS + sr * s2, cS + sc * t2)) := by
  intro fuel
  induction fuel with
  | zero =>
    intro r c d s _ _ _ _ _ _ _ p hp
    cases hp
  | succ f ih =>
    intro r c d s hfuel hc hr hd hs hd1 hd2 p hp
    have hfc : ((f + 1 : Nat) : Int) = (f : Int) + 1 := by push_cast; ring
    have hf0 : (0 : Int) ≤ (f : Int) := Int.natCast_nonneg f
    rw [hfc] at hfuel hc hd
    simp only [bresLoop] at hp
    rcases List.mem_cons.mp hp with rfl | hp2
    · have hsdr : s ≤ dr := by
        by_contra hgt
        push_neg at hgt
        have ht1 : dc - ((f : Int) + 1) ≤ dc - 1 := by linarith
        have hm1 : 2 * dr * (dc - ((f : Int) + 1)) ≤ 2 * dr * (dc - 1) :=
          mul_le_mul_of_nonneg_left ht1 (by linarith)
        have hm2 : 2 * dc * (dr + 1) ≤ 2 * dc * s :=
          mul_le_mul_of_nonneg_left (by omega) (by linarith)
        have hkey : 2 * dc * s ≤ 2 * dr * (dc - ((f : Int) + 1)) + dc := by
          nlinarith [hd, hd2]
        nlinarith [hkey, hm1, hm2]
      refine ⟨s, dc - ((f : Int) + 1), hs, hsdr, by linarith, by linarith, ?_⟩
      cases steep
      · simp only [if_false, Bool.false_eq_true]
        rw [hc, hr]
      · simp only [if_true]
        rw [hc, hr]
    · have hdlt : d < 2 * dc := by linarith
      have hstep : bresWhileF sr (2 * dc) (d.toNat + 1) r d =
          if 0 ≤ d then (r + sr, d - 2 * dc) else (r, d) :=
        bresWhileF_step sr (2 * dc) d.toNat r d hdlt
      by_cases hd0 : 0 ≤ d
      · rw [hstep, if_pos hd0] at hp2
        exact ih (r + sr) (c + sc) (d - 2 * dc + 2 * dr) (s + 1)
          (by linarith)
          (by rw [hc]; ring)
          (by rw [hr]; ring)
          (by rw [hd]; ring)
          (by linarith)
          (by linarith)
          (by linarith)
          p hp2
      · rw [hstep, if_neg hd0] at hp2
        exact ih r (c + sc) (d + 2 * dr) s
          (by linarith)
          (by rw [hc]; ring)
          hr
          (by rw [hd]; ring)
          hs
          (by linarith)
          (by linarith)
          p hp2

/-- Offsetting a coordinate by at most `|x1 - x0|` unit steps towards `x1`
stays between `x0` and `x1`. -/
lemma between_of_offset (x0 x1 t : Int) (ht0 : 0 ≤ t)
    (ht1 : t ≤ ((x1 - x0).natAbs : Int)) :
    min x0 x1 ≤ x0 + (if 0 < x1 - x0 then 1 else -1) * t ∧
    x0 + (if 0 < x1 - x0 then 1 else -1) * t ≤ max x0 x1 := by
  by_cases hpos : 0 < x1 - x0
  · rw [if_pos hpos]
    omega
  · rw [if_neg hpos]
    omega

/-- Every cell produced by the line tracer lies in the bounding box of its
two endpoints. -/
lemma traceLine_mem_bbox (r0 c0 r1 c1 : Int) :
    ∀ p ∈ traceLine r0 c0 r1 c1,
      min r0 r1 ≤ p.1 ∧ p.1 ≤ max r0 r1 ∧
      min c0 c1 ≤ p.2 ∧ p.2 ≤ max c0 c1 := by
  intro p hp
  simp only [traceLine] at hp
  by_cases hsteep : (c1 - c0).natAbs < (r1 - r0).natAbs
  · rw [if_pos hsteep] at hp
    rcases List.mem_append.mp hp with hloop | hend
    · have := bresLoop_mem_bounds true
        (if 0 < c1 - c0 then 1 else -1) (if 0 < r1 - r0 then 1 else -1)
        ((c1 - c0).natAbs : Int) ((r1 - r0).natAbs : Int)
        (Int.natCast_nonneg _) (by exact_mod_cast le_of_lt hsteep)
        (by exact_mod_cast Nat.one_le_iff_ne_zero.mpr (by omega)) c0 r0
        ((r1 - r0).natAbs) c0 r0 (2 * ((c1 - c0).natAbs : Int) - ((r1 - r0).natAbs : Int)) 0
        (le_refl _) (by ring) (by ring) (by ring) (le_refl _)
        (by have : (1 : Int) ≤ ((r1 - r0).natAbs : Int) := by exact_mod_cast Nat.one_le_iff_ne_zero.mpr (by omega)
            linarith [Int.natCast_nonneg (c1 - c0).natAbs])
        (by have : ((c1 - c0).natAbs : Int) ≤ ((r1 - r0).natAbs : Int) := by exact_mod_cast le_of_lt hsteep
            linarith [Int.natCast_nonneg (c1 - c0).natAbs])
        p hloop
      obtain ⟨s2, t2, hs0, hsd, ht0, htd, hpe⟩ := this
      simp only [if_true] at hpe
      have hb1 := between_of_offset r0 r1 t2 ht0 htd
      have hb2 := between_of_offset c0 c1 s2 hs0 hsd
      rw [hpe]
      exact ⟨hb1.1, hb1.2, hb2.1, hb2.2⟩
    · have : p = (r1, c1) := by simpa using hend
      rw [this]
      constructor
      · exact min_le_right _ _
      constructor
      · exact le_max_right _ _
      constructor
      · exact min_le_right _ _
      · exact le_max_right _ _
  · rw [if_neg hsteep] at hp
    rcases Nat.eq_zero_or_pos (c1 - c0).natAbs with hdc0 | hdcpos
    · have hdr0 : (r1 - r0).natAbs = 0 := by omega
      rw [hdc0] at hp
      simp only [bresLoop, List.nil_append] at hp
      have : p = (r1, c1) := by simpa using hp
      rw [this]
      refine ⟨min_le_right _ _, le_max_right _ _, min_le_right _ _,
        le_max_right _ _⟩
    · rcases List.mem_append.mp hp with hloop | hend
      · have := bresLoop_mem_bounds false
          (if 0 < r1 - r0 then 1 else -1) (if 0 < c1 - c0 then 1 else -1)
          ((r1 - r0).natAbs : Int) ((c1 - c0).natAbs : Int)
          (Int.natCast_nonneg _) (by exact_mod_cast not_lt.mp hsteep)
          (by exact_mod_cast hdcpos) r0 c0
          ((c1 - c0).natAbs) r0 c0 (2 * ((r1 - r0).natAbs : Int) - ((c1 - c0).natAbs : Int)) 0
          (le_refl _) (by ring) (by ring) (by ring) (le_refl _)
          (by have : (1 : Int) ≤ ((c1 - c0).natAbs : Int) := by exact_mod_cast hdcpos
              linarith [Int.natCast_nonneg (r1 - r0).natAbs])
          (by have : ((r1 - r0).natAbs : Int) ≤ ((c1 - c0).natAbs : Int) := by exact_mod_cast not_lt.mp hsteep
              linarith [Int.natCast_nonneg (r1 - r0).natAbs])
          p hloop
        obtain ⟨s2, t2, hs0, hsd, ht0, htd, hpe⟩ := this
        simp only [if_false, Bool.false_eq_true] at hpe
        have hb1 := between_of_offset r0 r1 s2 hs0 hsd
        have hb2 := between_of_offset c0 c1 t2 ht0 htd
        rw [hpe]
        exact ⟨hb1.1, hb1.2, hb2.1, hb2.2⟩
      · have : p = (r1, c1) := by simpa using hend
        rw [this]
        refine ⟨min_le_right _ _, le_max_right _ _, min_le_right _ _,
          le_max_right _ _⟩

/-! Fill and perimeter membership. -/

lemma mem_intRange (lo hi x : Int) : x ∈ intRange lo hi ↔ lo ≤ x ∧ x ≤ hi := by
  constructor
  · intro hx
    unfold intRange at hx
    obtain ⟨k, hk, he⟩ := List.mem_map.mp hx
    have hk2 : k < (hi - lo + 1).toNat := List.mem_range.mp hk
    rw [Int.ofNat_eq_natCast] at he
    omega
  · intro hb
    unfold intRange
    apply List.mem_map.mpr
    exact ⟨(x - lo).toNat, List.mem_range.mpr (by omega),
      by rw [Int.ofNat_eq_natCast]; omega⟩

lemma foldl_min_le_init (f : Int × Int → Int) :
    ∀ (l : List (Int × Int)) (a : Int),
      l.foldl (fun m w => min m (f w)) a ≤ a := by
  intro l
  induction l with
  | nil => intro a; exact le_refl a
  | cons w rest ih =>
    intro a
    exact le_trans (ih (min a (f w))) (min_le_left _ _)

lemma foldl_min_le_mem (f : Int × Int → Int) :
    ∀ (l : List (Int × Int)) (a : Int) (v : Int × Int), v ∈ l →
      l.foldl (fun m w => min m (f w)) a ≤ f v := by
  intro l
  induction l with
  | nil => intro a v hv; cases hv
  | cons w rest ih =>
    intro a v hv
    rcases List.mem_cons.mp hv with rfl | hv
    · exact le_trans (foldl_min_le_init f rest (min a (f v))) (min_le_right _ _)
    · exact ih (min a (f w)) v hv

lemma init_le_foldl_max (f : Int × Int → Int) :
    ∀ (l : List (Int × Int)) (a : Int),
      a ≤ l.foldl (fun m w => max m (f w)) a := by
  intro l
  induction l with
  | nil => intro a; exact le_refl a
  | cons w rest ih =>
    intro a
    exact le_trans (le_max_left _ _) (ih (max a (f w)))

lemma mem_le_foldl_max (f : Int × Int → Int) :
    ∀ (l : List (Int × Int)) (a : Int) (v : Int × Int), v ∈ l →
      f v ≤ l.foldl (fun m w => max m (f w)) a := by
  intro l
  induction l with
  | nil => intro a v hv; cases hv
  | cons w rest ih =>
    intro a v hv
    rcases List.mem_cons.mp hv with rfl | hv
    · exact le_trans (le_max_right _ _) (init_le_foldl_max f rest (max a (f v)))
    · exact ih (max a (f w)) v hv

lemma vMin_le (f : Int × Int → Int) (l : List (Int × Int)) (v : Int × Int)
    (hv : v ∈ l) : vMin f l ≤ f v := by
  cases l with
  | nil => cases hv
  | cons w rest =>
    rcases List.mem_cons.mp hv with rfl | hv
    · exact foldl_min_le_init f rest (f v)
    · exact foldl_min_le_mem f rest (f w) v hv

lemma le_vMax (f : Int × Int → Int) (l : List (Int × Int)) (v : Int × Int)
    (hv : v ∈ l) : f v ≤ vMax f l := by
  cases l with
  | nil => cases hv
  | cons w rest =>
    rcases List.mem_cons.mp hv with rfl | hv
    · exact init_le_foldl_max f rest (f v)
    · exact mem_le_foldl_max f rest (f w) v hv

lemma polyEdges_mem (verts : List (Int × Int)) (e : (Int × Int) × (Int × Int))
    (he : e ∈ polyEdges verts) : e.1 ∈ verts ∧ e.2 ∈ verts := by
  unfold polyEdges at he
  obtain ⟨a, b⟩ := e
  have := List.of_mem_zip he
  exact ⟨this.1, (List.mem_rotate).mp this.2⟩

/-- C7 (amended): the filled rasterization contains every perimeter cell
whose center lies on or inside the polygon; discrete line tracing can emit
cells whose centers fall strictly outside the polygon, and exactly those
perimeter cells are absent from the fill. -/
theorem claim_C7 (verts : List (Int × Int)) (p : Int × Int)
    (hv : 3 ≤ verts.length) (hp : p ∈ tracePerimeter verts)
    (hin : insideOrOn verts p = true) :
    p ∈ fillPolygon verts := by
  unfold tracePerimeter at hp
  rw [if_neg (by omega)] at hp
  obtain ⟨e, he, hpe⟩ := List.mem_flatMap.mp hp
  have hb := traceLine_mem_bbox e.1.1 e.1.2 e.2.1 e.2.2 p hpe
  obtain ⟨he1, he2⟩ := polyEdges_mem verts e he
  have hr1 : vMin Prod.fst verts ≤ p.1 :=
    le_trans (le_min (vMin_le Prod.fst verts e.1 he1)
      (vMin_le Prod.fst verts e.2 he2)) hb.1
  have hr2 : p.1 ≤ vMax Prod.fst verts :=
    le_trans hb.2.1 (max_le (le_vMax Prod.fst verts e.1 he1)
      (le_vMax Prod.fst verts e.2 he2))
  have hc1 : vMin Prod.snd verts ≤ p.2 :=
    le_trans (le_min (vMin_le Prod.snd verts e.1 he1)
      (vMin_le Prod.snd verts e.2 he2)) hb.2.2.1
  have hc2 : p.2 ≤ vMax Prod.snd verts :=
    le_trans hb.2.2.2 (max_le (le_vMax Prod.snd verts e.1 he1)
      (le_vMax Prod.snd verts e.2 he2))
  unfold fillPolygon
  rw [if_neg (by omega)]
  rw [List.mem_flatMap]
  refine ⟨p.1, (mem_intRange _ _ _).mpr ⟨hr1, hr2⟩, ?_⟩
  rw [List.mem_map]
  refine ⟨p.2, ?_, ?_⟩
  · rw [List.mem_filter]
    exact ⟨(mem_intRange _ _ _).mpr ⟨hc1, hc2⟩, by simpa using hin⟩
  · exact Prod.mk.eta

/-- C7 counterexample: on a 2 x 3 centered unit grid, the polygon snapped
to the valid simple triangle (0,0), (1,2), (0,2) — three pairwise distinct,
non-collinear vertices — has perimeter cell (1,1) (emitted by the line
tracer between (0,0) and (1,2)) that the filled rasterization of the same
polygon does not contain, so the filled-cell set is not a superset of the
perimeter-cell set. -/
theorem claim_C7_cex :
    cellIn (gridPolygonsFrom txA tyA none true [[0, 2, 2]] [[0, 1, 0]] false)
      0 (1, 1) = true ∧
    cellIn (gridPolygonsFrom txA tyA none true [[0, 2, 2]] [[0, 1, 0]] true)
      0 (1, 1) = false ∧
    kdtreeQuery gA [0, 2, 2] [0, 1, 0] = .ok [(0, 0), (1, 2), (0, 2)] ∧
    ((1 : Int), (2 : Int)) ≠ (0, 0) ∧ ((0 : Int), (2 : Int)) ≠ (0, 0) ∧
    ((1 : Int), (2 : Int)) ≠ (0, 2) ∧
    ((1 - 0) * (2 - 0) - (2 - 0) * (0 - 0) : Int) ≠ 0 := by
  refine ⟨?_, ?_, ?_, by decide, by decide, by decide, ?_⟩
  · with_unfolding_all rfl
  · with_unfolding_all rfl
  · with_unfolding_all rfl
  · with_unfolding_all decide

theorem claim_C7_witness :
    (0, 1) ∈ fillPolygon [(0, 0), (1, 2), (0, 2)] :=
  claim_C7 [(0, 0), (1, 2), (0, 2)] (0, 1) (by decide)
    (by with_unfolding_all decide) (by with_unfolding_all decide)

end Pygridder
